import Mathlib

set_option autoImplicit false

/-!
Verification of the nx task-cache engine (packages/nx/src/native/cache/cache.rs).

The engine couples a transactional metadata index (the SQLite table
cache_outputs) with a filesystem artifact store under a cache root:
per hash an artifact directory mirroring declared outputs, and a
terminal-output blob under terminalOutputs.  We embed the data model and
the NxCache operations shallowly: filesystem trees are association lists
from relative paths to file contents, the index is an association list
from hash to row, and each Rust method becomes a state-passing function.
-/

/-- A filesystem path, as the list of its components relative to a root. -/
abbrev FilePath' := List String

/-- A directory tree: an association list from file paths to file contents.
Lookup takes the first matching entry. -/
abbrev Fs := List (FilePath' × String)

/-- On-disk state of a terminal-output blob. -/
inductive Blob where
  | readable (content : String)
  | unreadable
  deriving DecidableEq

/-- A row of the cache_outputs table; the hash is the (unique) key. -/
structure CacheRecord where
  code : Int
  created_at : Nat
  accessed_at : Nat
  deriving DecidableEq

/-- The value produced by get and consumed by remote hydration and
workspace restoration (struct CachedResult in cache.rs). -/
structure CachedResult where
  code : Int
  terminal_output : String
  outputs_path : String
  deriving DecidableEq

/-- The whole observable state an NxCache operates on: the index rows, the
per-hash artifact directories and terminal-output blobs under the cache
root, the workspace tree, the cache root path, and the current clock
(what CURRENT_TIMESTAMP returns during the operation). -/
structure CacheState where
  index : List (String × CacheRecord)
  artifacts : List (String × Fs)
  blobs : List (String × Blob)
  workspace : Fs
  cachePath : String
  now : Nat
  deriving DecidableEq

/-- First-match lookup in an association list. -/
def alookup {K V : Type} [DecidableEq K] : List (K × V) → K → Option V
  | [], _ => none
  | (k', v) :: rest, k => if k' = k then some v else alookup rest k

/-- Remove every entry with the given key. -/
def aremove {K V : Type} [DecidableEq K] : List (K × V) → K → List (K × V)
  | [], _ => []
  | (k', v) :: rest, k =>
    if k' = k then aremove rest k else (k', v) :: aremove rest k

/-- Set the value at a key, replacing any previous entries for it. -/
def aset {K V : Type} [DecidableEq K] (l : List (K × V)) (k : K) (v : V) :
    List (K × V) :=
  (k, v) :: aremove l k

/-- Left-priority choice on options. -/
def oor {α : Type} : Option α → Option α → Option α
  | some a, _ => some a
  | none, b => b

/-- pathLE a b: path a is an ancestor of, or equal to, path b. -/
def pathLE : FilePath' → FilePath' → Bool
  | [], _ => true
  | _ :: _, [] => false
  | a :: as, b :: bs => if a = b then pathLE as bs else false

/-- The file content stored at a path, if any. -/
def fileAt (fs : Fs) (p : FilePath') : Option String := alookup fs p

/-- Does a path exist, either as a file or as a directory holding some
file (Path::exists in Rust)? -/
def pathExists (fs : Fs) (p : FilePath') : Bool :=
  fs.any (fun q => pathLE p q.1)

/-- Recursively delete the file or directory at a path, tolerating its
absence (fs_extra remove semantics). -/
def removeTree (fs : Fs) (p : FilePath') : Fs :=
  fs.filter (fun q => !(pathLE p q.1))

/-- The subtree rooted at a path, with paths made relative to it. -/
def subtreeAt (fs : Fs) (p : FilePath') : Fs :=
  (fs.filter (fun q => pathLE p q.1)).map (fun q => (q.1.drop p.length, q.2))

/-- Modelled from the spec: the recursive copier collaborator _copy
(crate::native::cache::file_ops, not under src/) copies a file or
directory tree so that the tree src appears at path pre inside dst,
creating intermediate directories and overwriting existing content file
by file. -/
def copyInto (src : Fs) (pre : FilePath') (dst : Fs) : Fs :=
  src.map (fun q => (pre ++ q.1, q.2)) ++ dst

/-- Modelled from the spec: the output-path expansion collaborator
_expand_outputs (crate::native::cache::expand_outputs, not under src/)
resolves declared glob patterns against a root tree into concrete
relative paths.  The engine theorems quantify over every such function. -/
abbrev Expand := Fs → List String → List FilePath'

/-- UPDATE cache_outputs SET accessed_at = CURRENT_TIMESTAMP WHERE hash = ?. -/
def touch : List (String × CacheRecord) → String → Nat →
    List (String × CacheRecord)
  | [], _, _ => []
  | (h, r) :: rest, hash, now =>
    if h = hash then (h, { r with accessed_at := now }) :: touch rest hash now
    else (h, r) :: touch rest hash now

/-- Errors surfaced by the index (rusqlite). -/
inductive IndexError where
  | uniqueConstraintViolation
  deriving DecidableEq

/-- Errors surfaced by filesystem removal (fs_extra). -/
inductive FsError where
  | removeFailed
  deriving DecidableEq

/-- Error kinds of check_cache_fs_in_sync: the COUNT query or the
read_dir call itself failing. -/
inductive CacheError where
  | indexError
  | fsError
  deriving DecidableEq

namespace NxCache

/-- cache_path.join(hash), the artifact directory path for a hash. -/
def artifactDirPath (cachePath hash : String) : String :=
  cachePath ++ "/" ++ hash

/-- cache_path.join("terminalOutputs").join(hash). -/
def terminalOutputPath (cachePath hash : String) : String :=
  cachePath ++ "/terminalOutputs/" ++ hash

/-- read_to_string(terminal_output_path).unwrap_or(String::from("")):
the blob contents, or the empty string when absent or unreadable. -/
def read_terminal_output (blobs : List (String × Blob)) (hash : String) :
    String :=
  match alookup blobs hash with
  | some (Blob.readable s) => s
  | _ => ""

/-- NxCache::get: the atomic UPDATE .. RETURNING code row query; on a row,
bump accessed_at to now, read the terminal output blob best-effort and
return the CachedResult; on no row, return None with the state unchanged. -/
def get (s : CacheState) (hash : String) :
    CacheState × Option CachedResult :=
  match alookup s.index hash with
  | none => (s, none)
  | some r =>
    ({ s with index := touch s.index hash s.now },
      some { code := r.code,
             terminal_output := read_terminal_output s.blobs hash,
             outputs_path := artifactDirPath s.cachePath hash })

/-- NxCache::record_to_cache: INSERT INTO cache_outputs (hash, code).
The hash is the primary key, so an existing row makes the insert fail
with a unique-constraint violation; otherwise a fresh row is appended
with created_at = accessed_at = now. -/
def record_to_cache (s : CacheState) (hash : String) (code : Int) :
    CacheState × Except IndexError Unit :=
  match alookup s.index hash with
  | some _ => (s, Except.error IndexError.uniqueConstraintViolation)
  | none =>
    ({ s with index :=
        s.index ++ [(hash, { code := code, created_at := s.now,
                             accessed_at := s.now })] },
      Except.ok ())

/-- The artifact tree built by NxCache::put's copy loop: starting from the
freshly recreated empty task directory, copy each expanded output that
currently exists in the workspace into the directory at the same
relative path. -/
def putTree (expanded : List FilePath') (ws : Fs) : Fs :=
  expanded.foldl
    (fun dir p =>
      if pathExists ws p then copyInto (subtreeAt ws p) p dir else dir)
    []

/-- NxCache::put: wipe and recreate the task directory, write the terminal
output blob, expand the declared outputs against the workspace root, copy
each existing expanded output into the task directory, and only then
record the (hash, code) row.  When record fails the filesystem writes
remain in place. -/
def put (expand : Expand) (s : CacheState) (hash terminal_output : String)
    (outputs : List String) (code : Int) :
    CacheState × Except IndexError Unit :=
  let s1 : CacheState := { s with artifacts := aset s.artifacts hash [] }
  let s2 : CacheState :=
    { s1 with blobs := aset s1.blobs hash (Blob.readable terminal_output) }
  let expanded := expand s2.workspace outputs
  let s3 : CacheState :=
    { s2 with
        artifacts := aset s2.artifacts hash (putTree expanded s2.workspace) }
  record_to_cache s3 hash code

/-- NxCache::apply_remote_cache_results: write the terminal output blob
from the supplied result, then record the (hash, code) row.  The artifact
directory is never touched. -/
def apply_remote_cache_results (s : CacheState) (hash : String)
    (result : CachedResult) : CacheState × Except IndexError Unit :=
  let s1 : CacheState :=
    { s with
        blobs := aset s.blobs hash (Blob.readable result.terminal_output) }
  record_to_cache s1 hash result.code

/-- The tree stored on disk at an absolute path string: for a path of the
form cache_path/hash it is that hash's artifact directory, otherwise
empty. -/
def treeAt (s : CacheState) (path : String) : Fs :=
  match s.artifacts.find?
      (fun q => artifactDirPath s.cachePath q.1 == path) with
  | some q => q.2
  | none => []

/-- NxCache::copy_files_from_cache: expand the declared outputs against
cached_result.outputs_path, remove the corresponding workspace paths,
then copy the whole cached artifact directory onto the workspace root. -/
def copy_files_from_cache (expand : Expand) (s : CacheState)
    (cached_result : CachedResult) (outputs : List String) : CacheState :=
  let outputsTree := treeAt s cached_result.outputs_path
  let expanded := expand outputsTree outputs
  let ws1 := expanded.foldl (fun acc p => removeTree acc p) s.workspace
  { s with workspace := copyInto outputsTree [] ws1 }

/-- The 7-day time-to-live of datetime('now', '-7 days'), in seconds. -/
def ttlSeconds : Nat := 7 * 24 * 60 * 60

/-- accessed_at < datetime('now', '-7 days'): the row's last access lies
more than the ttl before now. -/
def isStale (now : Nat) (r : CacheRecord) : Bool :=
  decide (r.accessed_at + ttlSeconds < now)

/-- A filesystem path the eviction sweep removes: the artifact directory
or the terminal-output blob of a hash. -/
inductive CachePathRef where
  | artifact (hash : String)
  | blob (hash : String)
  deriving DecidableEq

/-- Deleting one such path from disk. -/
def removeCachePathRef (s : CacheState) : CachePathRef → CacheState
  | CachePathRef.artifact h => { s with artifacts := aremove s.artifacts h }
  | CachePathRef.blob h => { s with blobs := aremove s.blobs h }

/-- fs_extra::remove_items as called by remove_old_cache_records: remove
the listed paths one by one, in order, stopping with the error at the
first removal the filesystem refuses (the fails oracle says which
removals fail); a removal of an absent path succeeds. -/
def remove_items_cache (fails : CachePathRef → Bool) :
    CacheState → List CachePathRef → CacheState × Except FsError Unit
  | s, [] => (s, Except.ok ())
  | s, p :: rest =>
    if fails p then (s, Except.error FsError.removeFailed)
    else remove_items_cache fails (removeCachePathRef s p) rest

/-- The flattened path list built from the DELETE .. RETURNING hash rows:
for each stale row, its artifact directory then its terminal-output blob. -/
def stalePaths : List (String × CacheRecord) → List CachePathRef
  | [] => []
  | (h, _) :: rest =>
    CachePathRef.artifact h :: CachePathRef.blob h :: stalePaths rest

/-- NxCache::remove_old_cache_records: the DELETE query removes every row
whose accessed_at is older than now minus 7 days and yields the removed
hashes; then remove_items deletes each removed hash's artifact directory
and terminal-output blob. -/
def remove_old_cache_records (fails : CachePathRef → Bool)
    (s : CacheState) : CacheState × Except FsError Unit :=
  let stale := s.index.filter (fun q => isStale s.now q.2)
  let s1 : CacheState :=
    { s with index := s.index.filter (fun q => !(isStale s.now q.2)) }
  remove_items_cache fails s1 (stalePaths stale)

/-- The oracle under which every filesystem removal succeeds. -/
def noFsFailure : CachePathRef → Bool := fun _ => false

/-- One result of iterating read_dir on the cache root: either reading
the entry itself failed, or an entry with its name and the result of
file_type().is_dir() (none when file_type() failed). -/
inductive RawEntry where
  | err
  | entry (name : String) (ftype : Option Bool)
  deriving DecidableEq

/-- The hash naming convention of the consistency check, regex ^\d+$ :
one or more decimal digits and nothing else. -/
def isNumericName (name : String) : Bool :=
  !name.toList.isEmpty && name.toList.all Char.isDigit

/-- The filter applied to each read_dir entry: errored entries count as
false, and an entry counts only when its file type was read as a
directory and its name matches the hash naming convention. -/
def countedEntry : RawEntry → Bool
  | RawEntry.err => false
  | RawEntry.entry name ftype => ftype.getD false && isNumericName name

/-- NxCache::check_cache_fs_in_sync: compare the COUNT(*) of cache_outputs
with the number of counted read_dir entries of the cache root.  A failure
of the COUNT query or of read_dir itself propagates as an error. -/
def check_cache_fs_in_sync (countResult : Except CacheError Int)
    (listing : Except CacheError (List RawEntry)) :
    Except CacheError Bool :=
  match countResult with
  | Except.error e => Except.error e
  | Except.ok n =>
    match listing with
    | Except.error e => Except.error e
    | Except.ok es =>
      Except.ok (decide (n = ((es.filter countedEntry).length : Int)))

/-- From the claim's words, not the source: an entry counted by the
consistency check is a directory whose name consists of one or more
decimal digits. -/
def specIsCountedDir : RawEntry → Bool
  | RawEntry.entry name (some true) =>
    (match name.toList with
     | [] => false
     | c :: cs => c.isDigit && cs.all Char.isDigit)
  | _ => false

end NxCache

/-! ### Concrete cache states used to evaluate the theorems -/

/-- An empty cache over an empty workspace. -/
def exMiss1 : CacheState :=
  { index := [], artifacts := [], blobs := [], workspace := [],
    cachePath := "croot", now := 0 }

/-- The row of hash 1 in exState1. -/
def exRec1 : CacheRecord := { code := 0, created_at := 5, accessed_at := 5 }

/-- A cache holding hash 1 with exit code 0 and terminal output "ok". -/
def exState1 : CacheState :=
  { index := [("1", exRec1)], artifacts := [],
    blobs := [("1", Blob.readable ("ok"))], workspace := [],
    cachePath := "croot", now := 9 }

/-- An expansion collaborator that always resolves to dist/a.txt. -/
def exExpand2 : Expand := fun _ _ => [["dist", "a.txt"]]

/-- An empty cache over a workspace holding dist/a.txt. -/
def exState2 : CacheState :=
  { index := [], artifacts := [], blobs := [],
    workspace := [(["dist", "a.txt"], "A")], cachePath := "croot", now := 3 }

/-- The row of hash 7 in exState3. -/
def exRec3 : CacheRecord := { code := 2, created_at := 1, accessed_at := 1 }

/-- A cache already holding a row for hash 7. -/
def exState3 : CacheState :=
  { index := [("7", exRec3)], artifacts := [], blobs := [], workspace := [],
    cachePath := "croot", now := 4 }

/-- A stale row: last accessed at time 0. -/
def exStaleRec4 : CacheRecord := { code := 0, created_at := 0, accessed_at := 0 }

/-- A fresh row: last accessed at time 700000. -/
def exFreshRec4 : CacheRecord :=
  { code := 1, created_at := 700000, accessed_at := 700000 }

/-- A cache at time 700000 holding the stale hash 1 and the fresh hash 2,
each with both on-disk halves present. -/
def exState4 : CacheState :=
  { index := [("1", exStaleRec4), ("2", exFreshRec4)],
    artifacts := [("1", [(["o"], "x")]), ("2", [(["o"], "y")])],
    blobs := [("1", Blob.readable ("t1")), ("2", Blob.readable ("t2"))],
    workspace := [], cachePath := "croot", now := 700000 }

/-- An expansion collaborator that always resolves to out/x. -/
def exExpand5 : Expand := fun _ _ => [["out", "x"]]

/-- A cache whose artifact directory for hash 7 holds out/x with content
v1, over a workspace whose out/x holds v2. -/
def exState5 : CacheState :=
  { index := [], artifacts := [("7", [(["out", "x"], "v1")])], blobs := [],
    workspace := [(["out", "x"], "v2")], cachePath := "croot", now := 0 }

/-- The cached result for hash 7 of exState5. -/
def exResult5 : CachedResult :=
  { code := 0, terminal_output := "", outputs_path := "croot/7" }

/-- The read_dir listing of a cache root with one numeric artifact
directory, the terminalOutputs directory, a file with a numeric name and
one unreadable entry. -/
def exListing6 : List NxCache.RawEntry :=
  [NxCache.RawEntry.entry ("123") (some true),
   NxCache.RawEntry.entry ("terminalOutputs") (some true),
   NxCache.RawEntry.entry ("9") (some false),
   NxCache.RawEntry.err]

/-- A second stale row, last accessed at time 1. -/
def exRec7b : CacheRecord := { code := 0, created_at := 0, accessed_at := 1 }

/-- A cache at time 700000 with the two stale hashes 1 and 2, both halves
of each on disk. -/
def exState7 : CacheState :=
  { index := [("1", exStaleRec4), ("2", exRec7b)],
    artifacts := [("1", []), ("2", [(["f"], "z")])],
    blobs := [("1", Blob.readable ("a")), ("2", Blob.readable ("b"))],
    workspace := [], cachePath := "croot", now := 700000 }

/-- A removal oracle under which deleting the artifact directory of hash
1 fails and every other removal succeeds. -/
def exFails7 : NxCache.CachePathRef → Bool :=
  fun p => decide (p = NxCache.CachePathRef.artifact ("1"))

/-- A remote result payload for hash 9. -/
def exResult9 : CachedResult :=
  { code := 3, terminal_output := "remote", outputs_path := "" }

/-- An empty cache at time 11. -/
def exState9 : CacheState :=
  { index := [], artifacts := [], blobs := [], workspace := [],
    cachePath := "croot", now := 11 }

/-! ### Association-list and option lemmas -/

theorem alookup_aremove_self {K V : Type} [DecidableEq K]
    (l : List (K × V)) (k : K) : alookup (aremove l k) k = none := by
  induction l with
  | nil => rfl
  | cons q rest ih =>
    by_cases h : q.1 = k <;> simp [aremove, alookup, h, ih]

theorem alookup_aremove_ne {K V : Type} [DecidableEq K]
    (l : List (K × V)) (k k' : K) (hne : k' ≠ k) :
    alookup (aremove l k) k' = alookup l k' := by
  induction l with
  | nil => rfl
  | cons q rest ih =>
    by_cases h : q.1 = k
    · have hkk : k ≠ k' := fun he => hne he.symm
      simp [aremove, alookup, h, hkk, ih]
    · by_cases h2 : q.1 = k' <;> simp [aremove, alookup, h, h2, hne, ih]

theorem alookup_aset_self {K V : Type} [DecidableEq K]
    (l : List (K × V)) (k : K) (v : V) : alookup (aset l k v) k = some v := by
  simp [aset, alookup]

theorem alookup_aset_ne {K V : Type} [DecidableEq K]
    (l : List (K × V)) (k k' : K) (v : V) (hne : k' ≠ k) :
    alookup (aset l k v) k' = alookup l k' := by
  have : k ≠ k' := fun h => hne h.symm
  simp [aset, alookup, this, alookup_aremove_ne l k k' hne]

theorem alookup_append {K V : Type} [DecidableEq K]
    (xs ys : List (K × V)) (k : K) :
    alookup (xs ++ ys) k = oor (alookup xs k) (alookup ys k) := by
  induction xs with
  | nil => simp [alookup, oor]
  | cons q rest ih =>
    by_cases h : q.1 = k <;> simp [alookup, h, ih, oor]

theorem alookup_filter_key {K V : Type} [DecidableEq K]
    (pk : K → Bool) (l : List (K × V)) (k : K) :
    alookup (l.filter (fun q => pk q.1)) k
      = if pk k then alookup l k else none := by
  induction l with
  | nil => by_cases h : pk k <;> simp [alookup, h]
  | cons q rest ih =>
    by_cases hk : q.1 = k
    · subst hk
      by_cases hp : pk q.1 <;> simp [alookup, hp, List.filter, ih]
    · by_cases hp : pk q.1 <;> simp [alookup, hk, hp, List.filter, ih]

theorem alookup_filter_pos {K V : Type} [DecidableEq K]
    (pred : K × V → Bool) (l : List (K × V)) (k : K) (v : V)
    (hl : alookup l k = some v) (hp : pred (k, v) = true) :
    alookup (l.filter pred) k = some v := by
  induction l with
  | nil => simp [alookup] at hl
  | cons q rest ih =>
    by_cases hk : q.1 = k
    · simp [alookup, hk] at hl
      have hq : q = (k, v) := by
        cases q; simp_all
      subst hq
      simp [List.filter, hp, alookup]
    · simp [alookup, hk] at hl
      by_cases hpq : pred q <;> simp [List.filter, hpq, alookup, hk, ih hl]

theorem alookup_eq_none_filter {K V : Type} [DecidableEq K]
    (pred : K × V → Bool) (l : List (K × V)) (k : K)
    (hl : alookup l k = none) : alookup (l.filter pred) k = none := by
  induction l with
  | nil => simp [alookup]
  | cons q rest ih =>
    by_cases hk : q.1 = k
    · simp [alookup, hk] at hl
    · simp [alookup, hk] at hl
      by_cases hpq : pred q <;> simp [List.filter, hpq, alookup, hk, ih hl]

theorem alookup_mem {K V : Type} [DecidableEq K]
    (l : List (K × V)) (k : K) (v : V) (hl : alookup l k = some v) :
    (k, v) ∈ l := by
  induction l with
  | nil => simp [alookup] at hl
  | cons q rest ih =>
    by_cases hk : q.1 = k
    · simp [alookup, hk] at hl
      have hq : q = (k, v) := by cases q; simp_all
      simp [hq]
    · simp [alookup, hk] at hl
      exact List.mem_cons_of_mem q (ih hl)

theorem alookup_eq_none_of_forall {K V : Type} [DecidableEq K]
    (l : List (K × V)) (k : K) (hall : ∀ q ∈ l, q.1 ≠ k) :
    alookup l k = none := by
  induction l with
  | nil => rfl
  | cons q rest ih =>
    have h1 : q.1 ≠ k := hall q (List.mem_cons_self q rest)
    simp [alookup, h1]
    exact ih (fun q' hq' => hall q' (List.mem_cons_of_mem q hq'))

theorem alookup_filter_neg_nodup {K V : Type} [DecidableEq K]
    (pred : K × V → Bool) (l : List (K × V)) (k : K) (v : V)
    (hnd : (l.map Prod.fst).Nodup)
    (hl : alookup l k = some v) (hp : pred (k, v) = false) :
    alookup (l.filter pred) k = none := by
  induction l with
  | nil => simp [alookup]
  | cons q rest ih =>
    have hnd2 := hnd
    rw [List.map_cons, List.nodup_cons] at hnd2
    by_cases hk : q.1 = k
    · simp [alookup, hk] at hl
      have hq : q = (k, v) := by cases q; simp_all
      subst hq
      have hrest : alookup rest k = none := by
        apply alookup_eq_none_of_forall
        intro q' hq' heq
        have hmem : q'.1 ∈ rest.map Prod.fst :=
          List.mem_map_of_mem Prod.fst hq'
        rw [heq] at hmem
        exact hnd2.1 hmem
      simp [List.filter, hp]
      exact alookup_eq_none_filter pred rest k hrest
    · simp [alookup, hk] at hl
      by_cases hpq : pred q <;>
        simp [List.filter, hpq, alookup, hk, ih hnd2.2 hl]

theorem oor_none_right {α : Type} (a : Option α) : oor a none = a := by
  cases a <;> rfl

theorem oor_self_oor {α : Type} (a b : Option α) :
    oor a (oor a b) = oor a b := by
  cases a <;> rfl

/-! ### Path and tree lemmas -/

theorem pathLE_append_drop (e : FilePath') :
    ∀ p : FilePath', pathLE e p = true → e ++ p.drop e.length = p := by
  induction e with
  | nil => intro p _; simp
  | cons a as ih =>
    intro p hp
    cases p with
    | nil => simp [pathLE] at hp
    | cons b bs =>
      by_cases hab : a = b
      · subst hab
        simp [pathLE] at hp
        simp [ih bs hp]
      · simp [pathLE, hab] at hp

theorem map_subtreeAt (ws : Fs) (e : FilePath') :
    (subtreeAt ws e).map (fun q => (e ++ q.1, q.2))
      = ws.filter (fun q => pathLE e q.1) := by
  induction ws with
  | nil => rfl
  | cons q rest ih =>
    by_cases hle : pathLE e q.1
    · have hq : e ++ q.1.drop e.length = q.1 := pathLE_append_drop e q.1 hle
      simp [subtreeAt, List.filter, hle, hq] at ih ⊢
      exact ih
    · simp [subtreeAt, List.filter, hle] at ih ⊢
      exact ih

theorem fileAt_copy_subtree (ws : Fs) (e : FilePath') (dst : Fs)
    (p : FilePath') :
    fileAt (copyInto (subtreeAt ws e) e dst) p
      = if pathLE e p then oor (fileAt ws p) (fileAt dst p)
        else fileAt dst p := by
  show alookup ((subtreeAt ws e).map (fun q => (e ++ q.1, q.2)) ++ dst) p = _
  rw [alookup_append, map_subtreeAt]
  rw [alookup_filter_key (fun k => pathLE e k) ws p]
  by_cases hle : pathLE e p <;> simp [hle, oor, fileAt]

theorem fileAt_copyInto_nil (src dst : Fs) (p : FilePath') :
    fileAt (copyInto src [] dst) p = oor (fileAt src p) (fileAt dst p) := by
  have hmap : src.map (fun q => (([] : FilePath') ++ q.1, q.2)) = src := by
    have : (fun (q : FilePath' × String) => (([] : FilePath') ++ q.1, q.2))
        = id := funext fun q => rfl
    rw [this, List.map_id]
  show alookup (src.map (fun q => (([] : FilePath') ++ q.1, q.2)) ++ dst) p = _
  rw [hmap, alookup_append]
  rfl

theorem fileAt_putTree_fold (ws : Fs) (es : List FilePath') :
    ∀ (acc : Fs) (p : FilePath'),
    fileAt (es.foldl
        (fun dir e =>
          if pathExists ws e then copyInto (subtreeAt ws e) e dir else dir)
        acc) p
      = if es.any (fun e => pathExists ws e && pathLE e p)
        then oor (fileAt ws p) (fileAt acc p) else fileAt acc p := by
  induction es with
  | nil => intro acc p; simp
  | cons e rest ih =>
    intro acc p
    by_cases hex : pathExists ws e
    · by_cases hle : pathLE e p
      · simp only [List.foldl, List.any_cons, hex, hle, if_pos,
          Bool.true_and, Bool.true_or, if_true]
        rw [ih]
        by_cases hrest : rest.any (fun e => pathExists ws e && pathLE e p) <;>
          simp [hrest, fileAt_copy_subtree, hle, oor_self_oor]
      · simp only [List.foldl, List.any_cons, hex, hle, Bool.true_and,
          Bool.false_or, if_pos]
        rw [ih]
        simp [fileAt_copy_subtree, hle]
    · simp only [List.foldl, List.any_cons, hex, Bool.false_and,
        Bool.false_or, if_neg, Bool.not_eq_true]
      rw [ih]

theorem fileAt_putTree (ws : Fs) (es : List FilePath') (p : FilePath') :
    fileAt (NxCache.putTree es ws) p
      = if es.any (fun e => pathExists ws e && pathLE e p)
        then fileAt ws p else none := by
  show fileAt (es.foldl _ []) p = _
  rw [fileAt_putTree_fold ws es [] p]
  by_cases h : es.any (fun e => pathExists ws e && pathLE e p) <;>
    simp [h, fileAt, alookup, oor_none_right]

theorem fileAt_removeTree (fs : Fs) (e p : FilePath') :
    fileAt (removeTree fs e) p
      = if pathLE e p then none else fileAt fs p := by
  show alookup (fs.filter (fun q => !(pathLE e q.1))) p = _
  rw [alookup_filter_key (fun k => !(pathLE e k)) fs p]
  by_cases hle : pathLE e p <;> simp [hle, fileAt]

theorem fileAt_removeAll (es : List FilePath') :
    ∀ (fs : Fs) (p : FilePath'),
    fileAt (es.foldl (fun acc e => removeTree acc e) fs) p
      = if es.any (fun e => pathLE e p) then none else fileAt fs p := by
  induction es with
  | nil => intro fs p; simp
  | cons e rest ih =>
    intro fs p
    simp only [List.foldl, List.any_cons]
    rw [ih]
    by_cases hle : pathLE e p <;>
      by_cases hrest : rest.any (fun e => pathLE e p) <;>
      simp [hle, hrest, fileAt_removeTree]

/-! ### Index lemmas -/

theorem alookup_touch_self (idx : List (String × CacheRecord))
    (hash : String) (now : Nat) :
    alookup (touch idx hash now) hash
      = (alookup idx hash).map (fun r => { r with accessed_at := now }) := by
  induction idx with
  | nil => rfl
  | cons q rest ih =>
    cases q with
    | mk h r =>
      by_cases hh : h = hash <;> simp [touch, alookup, hh, ih]

theorem alookup_touch_ne (idx : List (String × CacheRecord))
    (hash h' : String) (now : Nat) (hne : h' ≠ hash) :
    alookup (touch idx hash now) h' = alookup idx h' := by
  induction idx with
  | nil => rfl
  | cons q rest ih =>
    cases q with
    | mk h r =>
      by_cases hh : h = hash
      · have hs : hash ≠ h' := Ne.symm hne
        simp [touch, alookup, hh, hs, ih]
      · by_cases h2 : h = h' <;> simp [touch, alookup, hh, h2, hne, ih]

/-! ### Eviction-sweep lemmas -/

theorem remove_items_ok (fails : NxCache.CachePathRef → Bool) :
    ∀ (ps : List NxCache.CachePathRef) (s : CacheState),
    (∀ p ∈ ps, fails p = false) →
    NxCache.remove_items_cache fails s ps
      = (ps.foldl NxCache.removeCachePathRef s, Except.ok ()) := by
  intro ps
  induction ps with
  | nil => intro s _; rfl
  | cons p rest ih =>
    intro s hall
    have hp : fails p = false := hall p (List.mem_cons_self p rest)
    simp only [NxCache.remove_items_cache, hp, Bool.false_eq_true, if_false,
      List.foldl]
    exact ih (NxCache.removeCachePathRef s p)
      (fun q hq => hall q (List.mem_cons_of_mem p hq))

theorem remove_items_fail (fails : NxCache.CachePathRef → Bool)
    (p : NxCache.CachePathRef) (hp : fails p = true) :
    ∀ (ps1 : List NxCache.CachePathRef) (ps2 : List NxCache.CachePathRef)
      (s : CacheState),
    (∀ q ∈ ps1, fails q = false) →
    NxCache.remove_items_cache fails s (ps1 ++ p :: ps2)
      = (ps1.foldl NxCache.removeCachePathRef s,
         Except.error FsError.removeFailed) := by
  intro ps1
  induction ps1 with
  | nil =>
    intro ps2 s _
    simp only [List.nil_append, NxCache.remove_items_cache, hp, if_true,
      List.foldl]
  | cons q rest ih =>
    intro ps2 s hall
    have hq : fails q = false := hall q (List.mem_cons_self q rest)
    simp only [List.cons_append, NxCache.remove_items_cache, hq,
      Bool.false_eq_true, if_false, List.foldl]
    exact ih ps2 (NxCache.removeCachePathRef s q)
      (fun q' hq' => hall q' (List.mem_cons_of_mem q hq'))

theorem index_foldl_remove :
    ∀ (ps : List NxCache.CachePathRef) (s : CacheState),
    (ps.foldl NxCache.removeCachePathRef s).index = s.index := by
  intro ps
  induction ps with
  | nil => intro s; rfl
  | cons p rest ih =>
    intro s
    rw [List.foldl, ih]
    cases p <;> rfl

theorem index_remove_items (fails : NxCache.CachePathRef → Bool) :
    ∀ (ps : List NxCache.CachePathRef) (s : CacheState),
    ((NxCache.remove_items_cache fails s ps).1).index = s.index := by
  intro ps
  induction ps with
  | nil => intro s; rfl
  | cons p rest ih =>
    intro s
    by_cases hp : fails p
    · simp [NxCache.remove_items_cache, hp]
    · simp only [NxCache.remove_items_cache, hp, Bool.false_eq_true, if_false]
      rw [ih]
      cases p <;> rfl

theorem artifacts_none_foldl :
    ∀ (ps : List NxCache.CachePathRef) (s : CacheState) (h : String),
    alookup s.artifacts h = none →
    alookup ((ps.foldl NxCache.removeCachePathRef s).artifacts) h = none := by
  intro ps
  induction ps with
  | nil => intro s h hs; exact hs
  | cons p rest ih =>
    intro s h hs
    rw [List.foldl]
    apply ih
    cases p with
    | artifact h' =>
      by_cases he : h' = h
      · subst he
        exact alookup_aremove_self s.artifacts h'
      · show alookup (aremove s.artifacts h') h = none
        rw [alookup_aremove_ne s.artifacts h' h (Ne.symm he)]
        exact hs
    | blob h' => exact hs

theorem artifacts_removed_foldl :
    ∀ (ps : List NxCache.CachePathRef) (s : CacheState) (h : String),
    NxCache.CachePathRef.artifact h ∈ ps →
    alookup ((ps.foldl NxCache.removeCachePathRef s).artifacts) h = none := by
  intro ps
  induction ps with
  | nil => intro s h hmem; simp at hmem
  | cons p rest ih =>
    intro s h hmem
    by_cases hp : p = NxCache.CachePathRef.artifact h
    · subst hp
      rw [List.foldl]
      apply artifacts_none_foldl
      exact alookup_aremove_self s.artifacts h
    · have : NxCache.CachePathRef.artifact h ∈ rest := by
        rcases List.mem_cons.mp hmem with he | hm
        · exact absurd he.symm hp
        · exact hm
      rw [List.foldl]
      exact ih (NxCache.removeCachePathRef s p) h this

theorem blobs_none_foldl :
    ∀ (ps : List NxCache.CachePathRef) (s : CacheState) (h : String),
    alookup s.blobs h = none →
    alookup ((ps.foldl NxCache.removeCachePathRef s).blobs) h = none := by
  intro ps
  induction ps with
  | nil => intro s h hs; exact hs
  | cons p rest ih =>
    intro s h hs
    rw [List.foldl]
    apply ih
    cases p with
    | blob h' =>
      by_cases he : h' = h
      · subst he
        exact alookup_aremove_self s.blobs h'
      · show alookup (aremove s.blobs h') h = none
        rw [alookup_aremove_ne s.blobs h' h (Ne.symm he)]
        exact hs
    | artifact h' => exact hs

theorem blobs_removed_foldl :
    ∀ (ps : List NxCache.CachePathRef) (s : CacheState) (h : String),
    NxCache.CachePathRef.blob h ∈ ps →
    alookup ((ps.foldl NxCache.removeCachePathRef s).blobs) h = none := by
  intro ps
  induction ps with
  | nil => intro s h hmem; simp at hmem
  | cons p rest ih =>
    intro s h hmem
    by_cases hp : p = NxCache.CachePathRef.blob h
    · subst hp
      rw [List.foldl]
      apply blobs_none_foldl
      exact alookup_aremove_self s.blobs h
    · have : NxCache.CachePathRef.blob h ∈ rest := by
        rcases List.mem_cons.mp hmem with he | hm
        · exact absurd he.symm hp
        · exact hm
      rw [List.foldl]
      exact ih (NxCache.removeCachePathRef s p) h this

theorem mem_stalePaths_artifact :
    ∀ (l : List (String × CacheRecord)) (h : String) (r : CacheRecord),
    (h, r) ∈ l → NxCache.CachePathRef.artifact h ∈ NxCache.stalePaths l := by
  intro l
  induction l with
  | nil => intro h r hmem; simp at hmem
  | cons q rest ih =>
    intro h r hmem
    rcases List.mem_cons.mp hmem with he | hm
    · cases q with
      | mk qh qr =>
        cases he
        simp [NxCache.stalePaths]
    · cases q with
      | mk qh qr =>
        simp only [NxCache.stalePaths, List.mem_cons]
        exact Or.inr (Or.inr (ih h r hm))

theorem mem_stalePaths_blob :
    ∀ (l : List (String × CacheRecord)) (h : String) (r : CacheRecord),
    (h, r) ∈ l → NxCache.CachePathRef.blob h ∈ NxCache.stalePaths l := by
  intro l
  induction l with
  | nil => intro h r hmem; simp at hmem
  | cons q rest ih =>
    intro h r hmem
    rcases List.mem_cons.mp hmem with he | hm
    · cases q with
      | mk qh qr =>
        cases he
        simp [NxCache.stalePaths]
    · cases q with
      | mk qh qr =>
        simp only [NxCache.stalePaths, List.mem_cons]
        exact Or.inr (Or.inr (ih h r hm))

/-! ### Claim theorems -/

/-- C1: get(hash) returns None and leaves the state unchanged when the
index has no row for hash; when a row exists it sets that row's
accessed_at to now (leaving the other rows unchanged) and returns Some
CachedResult whose code is the recorded one, whose outputs_path is the
per-hash artifact directory path under the cache root, and whose
terminal_output is the blob contents, or the empty string when the blob
is absent or unreadable; the artifact store never affects the outcome. -/
theorem C1_get_contract (s : CacheState) (hash : String) :
    (alookup s.index hash = none → NxCache.get s hash = (s, none)) ∧
    (∀ r : CacheRecord, alookup s.index hash = some r →
      NxCache.get s hash
        = ({ s with index := touch s.index hash s.now },
           some { code := r.code,
                  terminal_output := NxCache.read_terminal_output s.blobs hash,
                  outputs_path := NxCache.artifactDirPath s.cachePath hash }) ∧
      alookup (touch s.index hash s.now) hash
        = some { r with accessed_at := s.now } ∧
      (∀ h' : String, h' ≠ hash →
        alookup (touch s.index hash s.now) h' = alookup s.index h')) ∧
    (∀ c : String, alookup s.blobs hash = some (Blob.readable c) →
      NxCache.read_terminal_output s.blobs hash = c) ∧
    (alookup s.blobs hash = none →
      NxCache.read_terminal_output s.blobs hash = "") ∧
    (alookup s.blobs hash = some Blob.unreadable →
      NxCache.read_terminal_output s.blobs hash = "") ∧
    (∀ arts : List (String × Fs),
      (NxCache.get { s with artifacts := arts } hash).2
        = (NxCache.get s hash).2) := by
  refine ⟨?_, ?_, ?_, ?_, ?_, ?_⟩
  · intro h
    simp [NxCache.get, h]
  · intro r hr
    refine ⟨?_, ?_, ?_⟩
    · simp [NxCache.get, hr]
    · rw [alookup_touch_self, hr]
      rfl
    · intro h' hne
      exact alookup_touch_ne s.index hash h' s.now hne
  · intro c hc
    simp [NxCache.read_terminal_output, hc]
  · intro hc
    simp [NxCache.read_terminal_output, hc]
  · intro hc
    simp [NxCache.read_terminal_output, hc]
  · intro arts
    cases h : alookup s.index hash <;>
      simp [NxCache.get, h, NxCache.read_terminal_output]

/-- Evaluates C1 on concrete caches: a miss on the empty cache and a hit
on exState1, with the blob contents and the artifact path materialized. -/
theorem C1_get_contract_witness :
    NxCache.get exMiss1 "h" = (exMiss1, none) ∧
    NxCache.get exState1 "1"
      = ({ exState1 with index := touch exState1.index "1" exState1.now },
         some { code := 0, terminal_output := "ok",
                outputs_path := "croot/1" }) := by
  constructor
  · exact (C1_get_contract exMiss1 "h").1 rfl
  · have h := ((C1_get_contract exState1 "1").2.1 exRec1 rfl).1
    rw [h]
    rfl

/-- C2: put replaces the artifact directory of hash wholesale (its final
tree holds exactly the workspace content under the existing expanded
outputs, and nothing else), writes the terminal output blob, leaves every
other hash's on-disk state and the workspace untouched, and records the
(hash, code) row only as the final step: a fresh hash gets the appended
row and Ok, while an already-recorded hash gets the unique-constraint
error with the index unchanged but the filesystem writes of the earlier
steps still in place. -/
theorem C2_put_contract (expand : Expand) (s : CacheState)
    (hash terminal_output : String) (outputs : List String) (code : Int) :
    ((NxCache.put expand s hash terminal_output outputs code).1).workspace
        = s.workspace ∧
    ((NxCache.put expand s hash terminal_output outputs code).1).cachePath
        = s.cachePath ∧
    alookup ((NxCache.put expand s hash terminal_output outputs code).1).blobs
        hash = some (Blob.readable terminal_output) ∧
    (∀ h' : String, h' ≠ hash →
      alookup ((NxCache.put expand s hash terminal_output outputs code).1).blobs
          h' = alookup s.blobs h') ∧
    alookup
        ((NxCache.put expand s hash terminal_output outputs code).1).artifacts
        hash
      = some (NxCache.putTree (expand s.workspace outputs) s.workspace) ∧
    (∀ h' : String, h' ≠ hash →
      alookup
          ((NxCache.put expand s hash terminal_output outputs code).1).artifacts
          h' = alookup s.artifacts h') ∧
    (∀ p : FilePath',
      fileAt (NxCache.putTree (expand s.workspace outputs) s.workspace) p
        = if (expand s.workspace outputs).any
              (fun e => pathExists s.workspace e && pathLE e p)
          then fileAt s.workspace p else none) ∧
    (alookup s.index hash = none →
      (NxCache.put expand s hash terminal_output outputs code).2
          = Except.ok () ∧
      ((NxCache.put expand s hash terminal_output outputs code).1).index
        = s.index ++ [(hash, { code := code, created_at := s.now,
                               accessed_at := s.now })]) ∧
    (alookup s.index hash ≠ none →
      (NxCache.put expand s hash terminal_output outputs code).2
          = Except.error IndexError.uniqueConstraintViolation ∧
      ((NxCache.put expand s hash terminal_output outputs code).1).index
        = s.index) := by
  have hput : NxCache.put expand s hash terminal_output outputs code
      = NxCache.record_to_cache
          { s with
              artifacts := aset (aset s.artifacts hash []) hash
                (NxCache.putTree (expand s.workspace outputs) s.workspace),
              blobs := aset s.blobs hash (Blob.readable terminal_output) }
          hash code := rfl
  cases hidx : alookup s.index hash with
  | none =>
    rw [hput]
    simp only [NxCache.record_to_cache, hidx]
    refine ⟨by simp, by simp, alookup_aset_self _ _ _, ?_,
      alookup_aset_self _ _ _, ?_, ?_, ?_, ?_⟩
    · intro h' hne
      exact alookup_aset_ne _ _ _ _ hne
    · intro h' hne
      rw [alookup_aset_ne _ _ _ _ hne, alookup_aset_ne _ _ _ _ hne]
    · intro p
      exact fileAt_putTree s.workspace (expand s.workspace outputs) p
    · simp
    · simp
  | some r =>
    rw [hput]
    simp only [NxCache.record_to_cache, hidx]
    refine ⟨by simp, by simp, alookup_aset_self _ _ _, ?_,
      alookup_aset_self _ _ _, ?_, ?_, ?_, ?_⟩
    · intro h' hne
      exact alookup_aset_ne _ _ _ _ hne
    · intro h' hne
      rw [alookup_aset_ne _ _ _ _ hne, alookup_aset_ne _ _ _ _ hne]
    · intro p
      exact fileAt_putTree s.workspace (expand s.workspace outputs) p
    · simp
    · simp

/-- Evaluates C2 on a concrete put into the empty cache exState2: the
blob, the copied artifact tree and the appended index row materialize. -/
theorem C2_put_contract_witness :
    alookup ((NxCache.put exExpand2 exState2 "5" "ok"
        ["dist/a.txt"] 0).1).blobs "5" = some (Blob.readable ("ok")) ∧
    fileAt (NxCache.putTree (exExpand2 exState2.workspace ["dist/a.txt"])
        exState2.workspace) (["dist", "a.txt"]) = some "A" ∧
    (NxCache.put exExpand2 exState2 "5" "ok" ["dist/a.txt"] 0).2
      = Except.ok () := by
  refine ⟨(C2_put_contract exExpand2 exState2 "5" "ok"
      ["dist/a.txt"] 0).2.2.1, ?_, ?_⟩
  · have h := (C2_put_contract exExpand2 exState2 "5" "ok"
      ["dist/a.txt"] 0).2.2.2.2.2.2.1 (["dist", "a.txt"])
    rw [h]
    rfl
  · exact ((C2_put_contract exExpand2 exState2 "5" "ok"
      ["dist/a.txt"] 0).2.2.2.2.2.2.2.1 rfl).1

/-- C3: recording a hash that already has an index row fails with the
unique-constraint violation instead of upserting, both through
record_to_cache directly and through put, and the existing row (in
particular its stored exit code) is left unchanged. -/
theorem C3_duplicate_record (expand : Expand) (s : CacheState)
    (hash : String) (r : CacheRecord) (t : String) (outputs : List String)
    (code' : Int) (hrow : alookup s.index hash = some r) :
    (NxCache.record_to_cache s hash code').2
        = Except.error IndexError.uniqueConstraintViolation ∧
    alookup ((NxCache.record_to_cache s hash code').1).index hash = some r ∧
    (NxCache.put expand s hash t outputs code').2
        = Except.error IndexError.uniqueConstraintViolation ∧
    alookup ((NxCache.put expand s hash t outputs code').1).index hash
        = some r := by
  have hrec : ∀ s' : CacheState, alookup s'.index hash = some r →
      NxCache.record_to_cache s' hash code'
        = (s', Except.error IndexError.uniqueConstraintViolation) := by
    intro s' h
    simp [NxCache.record_to_cache, h]
  have hput : NxCache.put expand s hash t outputs code'
      = NxCache.record_to_cache
          { s with
              artifacts := aset (aset s.artifacts hash []) hash
                (NxCache.putTree (expand s.workspace outputs) s.workspace),
              blobs := aset s.blobs hash (Blob.readable t) }
          hash code' := rfl
  have hrow3 : alookup
      ({ s with
          artifacts := aset (aset s.artifacts hash []) hash
            (NxCache.putTree (expand s.workspace outputs) s.workspace),
          blobs := aset s.blobs hash (Blob.readable t) } : CacheState).index
      hash = some r := hrow
  refine ⟨?_, ?_, ?_, ?_⟩
  · rw [hrec s hrow]
  · rw [hrec s hrow]
    exact hrow
  · rw [hput, hrec _ hrow3]
  · rw [hput, hrec _ hrow3]
    exact hrow

/-- Evaluates C3 on exState3, which already holds a row for hash 7 with
exit code 2: a second record and a second put both fail and the code
stays 2. -/
theorem C3_duplicate_record_witness :
    (NxCache.record_to_cache exState3 "7" 9).2
        = Except.error IndexError.uniqueConstraintViolation ∧
    alookup ((NxCache.record_to_cache exState3 "7" 9).1).index "7"
        = some exRec3 ∧
    (NxCache.put exExpand2 exState3 "7" "again" [] 9).2
        = Except.error IndexError.uniqueConstraintViolation ∧
    alookup ((NxCache.put exExpand2 exState3 "7" "again" [] 9).1).index "7"
        = some exRec3 :=
  C3_duplicate_record exExpand2 exState3 "7" exRec3 "again" [] 9 rfl

/-- C4: with no filesystem failures, remove_old_cache_records succeeds,
deletes from the index exactly the rows whose accessed_at lies more than
7 days before now (creation time playing no role), and for each evicted
hash removes both the artifact directory and the terminal output blob,
after which get on that hash misses; rows accessed within the window
survive unchanged and no row appears from nowhere. -/
theorem C4_eviction (s : CacheState)
    (hnd : (s.index.map Prod.fst).Nodup) :
    (NxCache.remove_old_cache_records NxCache.noFsFailure s).2
        = Except.ok () ∧
    (∀ (h : String) (r : CacheRecord), alookup s.index h = some r →
      r.accessed_at + NxCache.ttlSeconds < s.now →
      alookup ((NxCache.remove_old_cache_records NxCache.noFsFailure s).1).index
          h = none ∧
      alookup
          ((NxCache.remove_old_cache_records NxCache.noFsFailure s).1).artifacts
          h = none ∧
      alookup ((NxCache.remove_old_cache_records NxCache.noFsFailure s).1).blobs
          h = none ∧
      (NxCache.get (NxCache.remove_old_cache_records NxCache.noFsFailure s).1
          h).2 = none) ∧
    (∀ (h : String) (r : CacheRecord), alookup s.index h = some r →
      ¬ (r.accessed_at + NxCache.ttlSeconds < s.now) →
      alookup ((NxCache.remove_old_cache_records NxCache.noFsFailure s).1).index
          h = some r) ∧
    (∀ h : String, alookup s.index h = none →
      alookup ((NxCache.remove_old_cache_records NxCache.noFsFailure s).1).index
          h = none) := by
  have hrw : NxCache.remove_old_cache_records NxCache.noFsFailure s
      = ((NxCache.stalePaths
            (s.index.filter (fun q => NxCache.isStale s.now q.2))).foldl
          NxCache.removeCachePathRef
          { s with index :=
              s.index.filter (fun q => !(NxCache.isStale s.now q.2)) },
         Except.ok ()) := by
    show NxCache.remove_items_cache NxCache.noFsFailure _ _ = _
    exact remove_items_ok _ _ _ (fun p _ => rfl)
  have hidx1 :
      ((NxCache.remove_old_cache_records NxCache.noFsFailure s).1).index
        = s.index.filter (fun q => !(NxCache.isStale s.now q.2)) := by
    rw [hrw]
    exact index_foldl_remove _ _
  refine ⟨by rw [hrw], ?_, ?_, ?_⟩
  · intro h r hr hstale
    have hsb : NxCache.isStale s.now r = true := by
      simp [NxCache.isStale, hstale]
    have hmem : (h, r) ∈ s.index.filter (fun q => NxCache.isStale s.now q.2) :=
      List.mem_filter.mpr ⟨alookup_mem s.index h r hr, hsb⟩
    have hidxnone :
        alookup ((NxCache.remove_old_cache_records NxCache.noFsFailure s).1).index
          h = none := by
      rw [hidx1]
      exact alookup_filter_neg_nodup _ s.index h r hnd hr (by simp [hsb])
    refine ⟨hidxnone, ?_, ?_, ?_⟩
    · rw [hrw]
      exact artifacts_removed_foldl _ _ h
        (mem_stalePaths_artifact _ h r hmem)
    · rw [hrw]
      exact blobs_removed_foldl _ _ h (mem_stalePaths_blob _ h r hmem)
    · simp [NxCache.get, hidxnone]
  · intro h r hr hfresh
    rw [hidx1]
    exact alookup_filter_pos _ s.index h r hr (by simp [NxCache.isStale, hfresh])
  · intro h hnone
    rw [hidx1]
    exact alookup_eq_none_filter _ s.index h hnone

/-- Evaluates C4 on exState4: the stale hash 1 loses its row, artifact
directory and blob and get misses on it, while the fresh hash 2 keeps its
row. -/
theorem C4_eviction_witness :
    alookup ((NxCache.remove_old_cache_records NxCache.noFsFailure
        exState4).1).index "1" = none ∧
    alookup ((NxCache.remove_old_cache_records NxCache.noFsFailure
        exState4).1).artifacts "1" = none ∧
    alookup ((NxCache.remove_old_cache_records NxCache.noFsFailure
        exState4).1).blobs "1" = none ∧
    (NxCache.get (NxCache.remove_old_cache_records NxCache.noFsFailure
        exState4).1 "1").2 = none ∧
    alookup ((NxCache.remove_old_cache_records NxCache.noFsFailure
        exState4).1).index "2" = some exFreshRec4 := by
  have h1 := (C4_eviction exState4 (by decide)).2.1 "1" exStaleRec4 rfl
    (by decide)
  have h2 := (C4_eviction exState4 (by decide)).2.2.1 "2" exFreshRec4 rfl
    (by decide)
  exact ⟨h1.1, h1.2.1, h1.2.2.1, h1.2.2.2, h2⟩

/-- C5: copy_files_from_cache expands the declared outputs against the
artifact tree at cached_result.outputs_path, removes those paths from the
workspace first and then overlays the whole cached tree onto the
workspace root: every file of the cached tree ends up in the workspace
with the cached content, paths under an expanded output that the cache
does not hold end up removed, and everything else in the workspace is
untouched. -/
theorem C5_restore_overwrites (expand : Expand) (s : CacheState)
    (cached_result : CachedResult) (outputs : List String) :
    (∀ (p : FilePath') (c : String),
      fileAt (NxCache.treeAt s cached_result.outputs_path) p = some c →
      fileAt ((NxCache.copy_files_from_cache expand s cached_result
          outputs).workspace) p = some c) ∧
    (∀ p : FilePath',
      fileAt (NxCache.treeAt s cached_result.outputs_path) p = none →
      (expand (NxCache.treeAt s cached_result.outputs_path) outputs).any
          (fun e => pathLE e p) = true →
      fileAt ((NxCache.copy_files_from_cache expand s cached_result
          outputs).workspace) p = none) ∧
    (∀ p : FilePath',
      fileAt (NxCache.treeAt s cached_result.outputs_path) p = none →
      (expand (NxCache.treeAt s cached_result.outputs_path) outputs).any
          (fun e => pathLE e p) = false →
      fileAt ((NxCache.copy_files_from_cache expand s cached_result
          outputs).workspace) p = fileAt s.workspace p) := by
  have hws : (NxCache.copy_files_from_cache expand s cached_result
        outputs).workspace
      = copyInto (NxCache.treeAt s cached_result.outputs_path) []
          ((expand (NxCache.treeAt s cached_result.outputs_path)
              outputs).foldl
            (fun acc p => removeTree acc p) s.workspace) := rfl
  refine ⟨?_, ?_, ?_⟩
  · intro p c hc
    rw [hws, fileAt_copyInto_nil, hc]
    rfl
  · intro p hc hany
    rw [hws, fileAt_copyInto_nil, hc, fileAt_removeAll, hany]
    rfl
  · intro p hc hany
    rw [hws, fileAt_copyInto_nil, hc, fileAt_removeAll, hany]
    rfl

/-- Evaluates C5 on exState5: the cached out/x (content v1) of hash 7
replaces the workspace's current out/x (content v2). -/
theorem C5_restore_overwrites_witness :
    fileAt exState5.workspace (["out", "x"]) = some "v2" ∧
    fileAt (NxCache.treeAt exState5 exResult5.outputs_path) (["out", "x"])
        = some "v1" ∧
    fileAt ((NxCache.copy_files_from_cache exExpand5 exState5 exResult5
        ["out/x"]).workspace) (["out", "x"]) = some "v1" :=
  ⟨rfl, rfl,
    (C5_restore_overwrites exExpand5 exState5 exResult5 ["out/x"]).1
      (["out", "x"]) "v1" rfl⟩

/-- C6: check_cache_fs_in_sync on readable inputs returns true exactly
when the index row count equals the number of listed entries that are
directories named by one or more decimal digits; the read_dir filter of
the implementation agrees pointwise with that description, so files (even
numerically named), the terminalOutputs directory and non-numeric
directories are never counted. -/
theorem C6_sync_check (n : Int) (es : List NxCache.RawEntry) :
    (NxCache.check_cache_fs_in_sync (Except.ok n) (Except.ok es)
        = Except.ok true
      ↔ n = ((es.filter NxCache.specIsCountedDir).length : Int)) ∧
    (∀ e : NxCache.RawEntry,
      NxCache.countedEntry e = NxCache.specIsCountedDir e) ∧
    NxCache.specIsCountedDir
        (NxCache.RawEntry.entry ("terminalOutputs") (some true)) = false ∧
    (∀ name : String,
      NxCache.specIsCountedDir (NxCache.RawEntry.entry name (some false))
        = false) ∧
    (∀ name : String,
      NxCache.specIsCountedDir (NxCache.RawEntry.entry name none)
        = false) := by
  have hpt : ∀ e : NxCache.RawEntry,
      NxCache.countedEntry e = NxCache.specIsCountedDir e := by
    intro e
    cases e with
    | err => rfl
    | entry name ftype =>
      cases ftype with
      | none => rfl
      | some b =>
        cases b with
        | false => rfl
        | true =>
          show NxCache.isNumericName name = _
          simp only [NxCache.isNumericName, NxCache.specIsCountedDir,
            String.toList]
          cases hnl : name.data with
          | nil => simp [hnl]
          | cons c cs => simp [hnl]
  have hfun : NxCache.countedEntry = NxCache.specIsCountedDir := funext hpt
  refine ⟨?_, hpt, by decide, ?_, ?_⟩
  · rw [NxCache.check_cache_fs_in_sync, hfun]
    simp
  · intro name
    rfl
  · intro name
    rfl

/-- Evaluates C6 on a concrete listing holding one numeric directory, the
terminalOutputs directory, a numerically named file and an unreadable
entry: the check with one index row returns true, with two rows false. -/
theorem C6_sync_check_witness :
    NxCache.check_cache_fs_in_sync (Except.ok 1) (Except.ok exListing6)
        = Except.ok true ∧
    ((exListing6.filter NxCache.specIsCountedDir).length : Int) = 1 ∧
    NxCache.check_cache_fs_in_sync (Except.ok 2) (Except.ok exListing6)
        = Except.ok false := by
  refine ⟨(C6_sync_check 1 exListing6).1.mpr (by decide), by decide, ?_⟩
  rfl

/-- C7 counterexample: in exState7 both hashes 1 and 2 are stale and only
the removal of hash 1's artifact directory fails, yet after the sweep
hash 2's artifact directory and terminal output blob are both still on
disk — a filesystem deletion failure on one stale hash does prevent the
deletion of the on-disk state of the remaining stale hashes. -/
theorem C7_sweep_counterexample :
    NxCache.isStale exState7.now exStaleRec4 = true ∧
    NxCache.isStale exState7.now exRec7b = true ∧
    exFails7 (NxCache.CachePathRef.artifact ("2")) = false ∧
    exFails7 (NxCache.CachePathRef.blob ("2")) = false ∧
    (NxCache.remove_old_cache_records exFails7 exState7).2
        = Except.error FsError.removeFailed ∧
    alookup
        ((NxCache.remove_old_cache_records exFails7 exState7).1).artifacts
        "2" = some [(["f"], "z")] ∧
    alookup ((NxCache.remove_old_cache_records exFails7 exState7).1).blobs
        "2" = some (Blob.readable ("b")) :=
  ⟨rfl, rfl, rfl, rfl, rfl, rfl, rfl⟩

/-- C7 as amended: the DELETE removes every stale row from the index
first, and the subsequent filesystem sweep is not best-effort per hash:
the collected paths are removed strictly in order and the first failing
removal aborts the whole sweep with the error, leaving every later path
(also those of other stale hashes) in place. -/
theorem C7_sweep_abort_on_failure (fails : NxCache.CachePathRef → Bool)
    (s s0 : CacheState) (ps ps1 ps2 : List NxCache.CachePathRef)
    (p : NxCache.CachePathRef) :
    ((∀ q ∈ ps, fails q = false) →
      NxCache.remove_items_cache fails s0 ps
        = (ps.foldl NxCache.removeCachePathRef s0, Except.ok ())) ∧
    ((∀ q ∈ ps1, fails q = false) → fails p = true →
      NxCache.remove_items_cache fails s0 (ps1 ++ p :: ps2)
        = (ps1.foldl NxCache.removeCachePathRef s0,
           Except.error FsError.removeFailed)) ∧
    ((NxCache.remove_old_cache_records fails s).1).index
      = s.index.filter (fun q => !(NxCache.isStale s.now q.2)) := by
  refine ⟨fun h => remove_items_ok fails ps s0 h,
    fun h hp => remove_items_fail fails p hp ps1 ps2 s0 h, ?_⟩
  show (NxCache.remove_items_cache fails _ _).1.index = _
  rw [index_remove_items]

/-- Evaluates C7's amended statement on exState7 with the failing oracle
exFails7: the sweep stops at the very first path (hash 1's artifact
directory), and the index nevertheless retains no stale row. -/
theorem C7_sweep_abort_on_failure_witness :
    NxCache.remove_items_cache exFails7
        { exState7 with index := [] }
        [NxCache.CachePathRef.artifact ("1"),
         NxCache.CachePathRef.blob ("1"),
         NxCache.CachePathRef.artifact ("2"),
         NxCache.CachePathRef.blob ("2")]
      = ({ exState7 with index := [] },
         Except.error FsError.removeFailed) ∧
    ((NxCache.remove_old_cache_records exFails7 exState7).1).index = [] := by
  constructor
  · exact (C7_sweep_abort_on_failure exFails7 exState7
        { exState7 with index := [] } []
        []
        [NxCache.CachePathRef.blob ("1"),
         NxCache.CachePathRef.artifact ("2"),
         NxCache.CachePathRef.blob ("2")]
        (NxCache.CachePathRef.artifact ("1"))).2.1
      (by intro q hq; simp at hq) rfl
  · rw [(C7_sweep_abort_on_failure exFails7 exState7 exState7 [] [] []
      (NxCache.CachePathRef.artifact ("1"))).2.2]
    rfl

/-- C8 counterexample: with one index row and a single cache-root entry
named 123 whose file-type inspection fails, check_cache_fs_in_sync
returns Ok false instead of surfacing an error, while the same listing
with the inspection succeeding returns Ok true — an I/O error while
inspecting an entry silently turns the verdict into false. -/
theorem C8_check_counterexample :
    NxCache.check_cache_fs_in_sync (Except.ok 1)
        (Except.ok [NxCache.RawEntry.entry ("123") (some true)])
      = Except.ok true ∧
    NxCache.check_cache_fs_in_sync (Except.ok 1)
        (Except.ok [NxCache.RawEntry.entry ("123") none])
      = Except.ok false :=
  ⟨rfl, rfl⟩

/-- C8 as amended: a failure of the COUNT query or of the read_dir call
itself propagates as an error, but an I/O error on an individual entry
(reading the entry, or reading its file type) is silently treated as the
entry not being a cache directory, so the check can return false — not
an error — because of such an error. -/
theorem C8_check_error_cases (e : CacheError) (n : Int)
    (l : Except CacheError (List NxCache.RawEntry))
    (es : List NxCache.RawEntry) (name : String) :
    NxCache.check_cache_fs_in_sync (Except.error e) l = Except.error e ∧
    NxCache.check_cache_fs_in_sync (Except.ok n) (Except.error e)
        = Except.error e ∧
    NxCache.countedEntry NxCache.RawEntry.err = false ∧
    NxCache.countedEntry (NxCache.RawEntry.entry name none) = false ∧
    NxCache.check_cache_fs_in_sync (Except.ok n) (Except.ok es)
      = Except.ok
          (decide (n = ((es.filter NxCache.countedEntry).length : Int))) :=
  ⟨rfl, rfl, rfl, rfl, rfl⟩

/-- C9: apply_remote_cache_results writes exactly the terminal output
blob for hash from the supplied result and records the (hash, code) row;
the artifact store, the workspace, every other blob and the cache root
path are untouched, and on a duplicate hash the index is unchanged and
the unique-constraint error surfaces. -/
theorem C9_apply_remote (s : CacheState) (hash : String)
    (result : CachedResult) :
    ((NxCache.apply_remote_cache_results s hash result).1).artifacts
        = s.artifacts ∧
    ((NxCache.apply_remote_cache_results s hash result).1).workspace
        = s.workspace ∧
    ((NxCache.apply_remote_cache_results s hash result).1).cachePath
        = s.cachePath ∧
    alookup ((NxCache.apply_remote_cache_results s hash result).1).blobs hash
        = some (Blob.readable result.terminal_output) ∧
    (∀ h' : String, h' ≠ hash →
      alookup ((NxCache.apply_remote_cache_results s hash result).1).blobs h'
        = alookup s.blobs h') ∧
    (alookup s.index hash = none →
      (NxCache.apply_remote_cache_results s hash result).2 = Except.ok () ∧
      ((NxCache.apply_remote_cache_results s hash result).1).index
        = s.index ++ [(hash, { code := result.code, created_at := s.now,
                               accessed_at := s.now })]) ∧
    (alookup s.index hash ≠ none →
      (NxCache.apply_remote_cache_results s hash result).2
          = Except.error IndexError.uniqueConstraintViolation ∧
      ((NxCache.apply_remote_cache_results s hash result).1).index
        = s.index) := by
  cases hidx : alookup s.index hash with
  | none =>
    simp only [NxCache.apply_remote_cache_results, NxCache.record_to_cache,
      hidx]
    refine ⟨by simp, by simp, by simp, alookup_aset_self _ _ _, ?_, ?_, ?_⟩
    · intro h' hne
      exact alookup_aset_ne _ _ _ _ hne
    · simp
    · simp
  | some r =>
    simp only [NxCache.apply_remote_cache_results, NxCache.record_to_cache,
      hidx]
    refine ⟨by simp, by simp, by simp, alookup_aset_self _ _ _, ?_, ?_, ?_⟩
    · intro h' hne
      exact alookup_aset_ne _ _ _ _ hne
    · simp
    · simp

/-- Evaluates C9 on the empty cache exState9: hydrating hash 9 writes its
blob, appends its row and leaves artifacts and workspace empty. -/
theorem C9_apply_remote_witness :
    alookup ((NxCache.apply_remote_cache_results exState9 "9"
        exResult9).1).blobs "9" = some (Blob.readable ("remote")) ∧
    ((NxCache.apply_remote_cache_results exState9 "9" exResult9).1).artifacts
        = [] ∧
    (NxCache.apply_remote_cache_results exState9 "9" exResult9).2
        = Except.ok () ∧
    ((NxCache.apply_remote_cache_results exState9 "9" exResult9).1).index
      = [("9", { code := 3, created_at := 11, accessed_at := 11 })] := by
  have h := C9_apply_remote exState9 "9" exResult9
  have h6 := h.2.2.2.2.2.1 rfl
  exact ⟨h.2.2.2.1, h.1, h6.1, h6.2⟩

/-- C10: copy_files_from_cache never mutates any cache state: the index,
the artifact store (also the tree at cached_result.outputs_path, which is
only read), the terminal output blobs, the cache root path and the clock
are exactly as before; only the workspace field changes. -/
theorem C10_restore_frame (expand : Expand) (s : CacheState)
    (cached_result : CachedResult) (outputs : List String) :
    (NxCache.copy_files_from_cache expand s cached_result outputs).index
        = s.index ∧
    (NxCache.copy_files_from_cache expand s cached_result outputs).artifacts
        = s.artifacts ∧
    (NxCache.copy_files_from_cache expand s cached_result outputs).blobs
        = s.blobs ∧
    (NxCache.copy_files_from_cache expand s cached_result outputs).cachePath
        = s.cachePath ∧
    (NxCache.copy_files_from_cache expand s cached_result outputs).now
        = s.now ∧
    NxCache.treeAt (NxCache.copy_files_from_cache expand s cached_result
        outputs) cached_result.outputs_path
      = NxCache.treeAt s cached_result.outputs_path ∧
    NxCache.copy_files_from_cache expand s cached_result outputs
      = { s with
            workspace := (NxCache.copy_files_from_cache expand s
              cached_result outputs).workspace } :=
  ⟨rfl, rfl, rfl, rfl, rfl, rfl, rfl⟩
